import Mathlib

/-!
Shallow embedding of `src/sage/misc/edit_module.py`.

Python strings are modelled as `List Char`.  `string.Template` objects are
modelled by the template string they carry, tokenised exactly as the
CPython `Template` pattern does (delimiter `$`, escaped `$$`, named `$ident`,
braced as in the source examples, and invalid `$` occurrences, with the
ASCII identifier pattern used by `string.Template`).
-/

namespace EditModule

/-- Python strings, modelled as lists of characters. -/
abbrev Str := List Char

/-- Convert a Lean string literal to the model string type. -/
def strL (s : String) : Str := s.toList

/-- First character of a Python identifier (`string.Template` idpattern). -/
def isIdentStart (c : Char) : Bool := c = '_' || c.isAlpha

/-- Subsequent character of a Python identifier. -/
def isIdentChar (c : Char) : Bool := isIdentStart c || c.isDigit

/-- Tokens of a `string.Template` pattern: literal characters, an escaped
delimiter `$$`, a named placeholder (braced or not), or an invalid
occurrence of the delimiter. -/
inductive Tok where
  | lit (c : Char)
  | dollar
  | ph (name : Str) (braced : Bool)
  | invalid
deriving DecidableEq

/-- Lexer states while scanning a template string. -/
inductive LexSt where
  | norm
  | dollar
  | braced (acc : Str)
  | named (acc : Str)

/-- One-pass tokeniser for `string.Template` strings, faithful to the
regex `\$(?:(\$)|(ident)|{ident}|(invalid))` scanning of CPython:
an invalid `$` consumes only the `$` and scanning resumes right after it. -/
def lexRun : LexSt → Str → List Tok
  | .norm, [] => []
  | .norm, c :: rest =>
      if c = '$' then lexRun .dollar rest else .lit c :: lexRun .norm rest
  | .dollar, [] => [.invalid]
  | .dollar, c :: rest =>
      if c = '$' then .dollar :: lexRun .norm rest
      else if c = '{' then lexRun (.braced []) rest
      else if isIdentStart c then lexRun (.named [c]) rest
      else .invalid :: .lit c :: lexRun .norm rest
  | .braced acc, [] => .invalid :: .lit '{' :: acc.reverse.map .lit
  | .braced acc, c :: rest =>
      if isIdentChar c then lexRun (.braced (c :: acc)) rest
      else if c = '}' then
        match acc.reverse with
        | [] => .invalid :: .lit '{' :: .lit '}' :: lexRun .norm rest
        | n0 :: ns =>
            if isIdentStart n0 then .ph (n0 :: ns) true :: lexRun .norm rest
            else .invalid :: .lit '{' ::
              ((n0 :: ns).map .lit ++ (.lit '}' :: lexRun .norm rest))
      else
        .invalid :: .lit '{' ::
          (acc.reverse.map .lit ++
            (if c = '$' then lexRun .dollar rest else .lit c :: lexRun .norm rest))
  | .named acc, [] => [.ph acc.reverse false]
  | .named acc, c :: rest =>
      if isIdentChar c then lexRun (.named (c :: acc)) rest
      else .ph acc.reverse false ::
        (if c = '$' then lexRun .dollar rest else .lit c :: lexRun .norm rest)

/-- Tokenise a template string. -/
def parse (s : Str) : List Tok := lexRun .norm s

/-- Errors raised by `Template.substitute`: a `KeyError` carrying the
missing placeholder name, or a `ValueError` for an invalid delimiter. -/
inductive SubErr where
  | keyError (k : Str)
  | invalidPlaceholder
deriving DecidableEq

/-- `Template.substitute`: replace placeholders left to right,
raising `KeyError` on the first unbound name and `ValueError` at an
invalid `$` occurrence. -/
def substituteT (m : Str → Option Str) : List Tok → Except SubErr Str
  | [] => .ok []
  | .lit c :: ts =>
      match substituteT m ts with
      | .ok s => .ok (c :: s)
      | .error e => .error e
  | .dollar :: ts =>
      match substituteT m ts with
      | .ok s => .ok ('$' :: s)
      | .error e => .error e
  | .invalid :: _ => .error .invalidPlaceholder
  | .ph n _ :: ts =>
      match m n with
      | none => .error (.keyError n)
      | some v =>
          match substituteT m ts with
          | .ok s => .ok (v ++ s)
          | .error e => .error e

/-- `Template.safe_substitute`: unbound placeholders and invalid
delimiters are left as literal text, `$$` still becomes `$`. -/
def safeSubT (m : Str → Option Str) : List Tok → Str
  | [] => []
  | .lit c :: ts => c :: safeSubT m ts
  | .dollar :: ts => '$' :: safeSubT m ts
  | .invalid :: ts => '$' :: safeSubT m ts
  | .ph n braced :: ts =>
      (match m n with
       | some v => v
       | none => if braced then '$' :: '{' :: (n ++ ['}']) else '$' :: n)
      ++ safeSubT m ts

/-- All placeholder names occurring in a token list (with repetitions). -/
def phList : List Tok → List Str
  | [] => []
  | .ph n _ :: ts => n :: phList ts
  | _ :: ts => phList ts

/-- A `string.Template` object, identified by the template string it
stores in its `template` attribute. -/
structure Template where
  template : Str
deriving DecidableEq

/-- The binding used by `template_fields`: every collected key is bound
to Python `None`, which `substitute` renders as the string `None`. -/
def lookupNone (dict : List Str) (k : Str) : Option Str :=
  if k ∈ dict then some (strL "None") else none

/-- The `while not dummy` probing loop of `template_fields`, with explicit
fuel; `none` means the loop has not terminated within the fuel (the real
loop diverges exactly when substitution keeps returning the empty string,
which is falsy in Python). -/
def template_fields_loop (toks : List Tok) : Nat → List Str → Option (Except SubErr (List Str))
  | 0, _ => none
  | n + 1, dict =>
      match substituteT (lookupNone dict) toks with
      | .error (.keyError k) => template_fields_loop toks n (dict ++ [k])
      | .error .invalidPlaceholder => some (.error .invalidPlaceholder)
      | .ok s => if s = [] then template_fields_loop toks n dict else some (.ok dict)

/-- Errors (`ValueError` and friends) surfaced by the entry points of
the module. -/
inductive VErr where
  | invalidTemplate
  | invalidPlaceholder
  | unknownEditor
  | noEditor
  | indexError
  | keyError
deriving DecidableEq

/-- The validation test of `set_edit_template`: the field set must be
contained in the set of the two names file and line, and contain file. -/
def goodFields (fields : List Str) : Bool :=
  (fields.all fun k => decide (k = strL "file" ∨ k = strL "line")) &&
    decide (strL "file" ∈ fields)

/-- `set_edit_template` on a `Template` object: probe the fields, check
them against the allow-list, and on success store (return) the template. -/
def set_edit_template (fuel : Nat) (t : Template) : Option (Except VErr Template) :=
  match template_fields_loop (parse t.template) fuel [] with
  | none => none
  | some (.error _) => some (.error .invalidPlaceholder)
  | some (.ok fields) =>
      if goodFields fields then some (.ok t) else some (.error .invalidTemplate)

/-- `set_edit_template` on a raw string: the string is wrapped in a
`Template` first. -/
def set_edit_template_str (fuel : Nat) (s : Str) : Option (Except VErr Template) :=
  set_edit_template fuel ⟨s⟩

/-- The `template_defaults` table of the module. -/
def template_defaults (name : Str) : Option Template :=
  if name = strL "vi" then some ⟨strL "vi -c ${line} ${file}"⟩
  else if name = strL "vim" then some ⟨strL "vim -c ${line} ${file}"⟩
  else if name = strL "emacs" then some ⟨strL "emacs ${opts} +${line} ${file}"⟩
  else if name = strL "nedit-nc" then some ⟨strL "nedit-nc -line ${line} ${file}"⟩
  else if name = strL "nedit-client" then some ⟨strL "nedit-client -line ${line} ${file}"⟩
  else if name = strL "ncl" then some ⟨strL "ncl -line ${line} ${file}"⟩
  else if name = strL "gedit" then some ⟨strL "gedit +${line} ${file} &"⟩
  else if name = strL "kate" then some ⟨strL "kate -u --line +${line} ${file} &"⟩
  else none

/-- `set_editor`: look the name up in the defaults table, fill in `opts`
with `safe_substitute`, and install the result via `set_edit_template`. -/
def set_editor (fuel : Nat) (name opts : Str) : Option (Except VErr Template) :=
  match template_defaults name with
  | none => some (.error .unknownEditor)
  | some d =>
      set_edit_template fuel
        ⟨safeSubT (fun k => if k = strL "opts" then some opts else none) (parse d.template)⟩


instance {ε α : Type} [DecidableEq ε] [DecidableEq α] : DecidableEq (Except ε α) :=
  fun a b =>
    match a, b with
    | .error e, .error f =>
        if h : e = f then isTrue (congrArg Except.error h)
        else isFalse (fun hh => h (Except.error.inj hh))
    | .ok x, .ok y =>
        if h : x = y then isTrue (congrArg Except.ok h)
        else isFalse (fun hh => h (Except.ok.inj hh))
    | .error _, .ok _ => isFalse (fun hh => Except.noConfusion hh)
    | .ok _, .error _ => isFalse (fun hh => Except.noConfusion hh)

/-- If `substitute` succeeds then every placeholder of the template was
bound in the mapping. -/
theorem substituteT_ok_mem (m : Str → Option Str) :
    ∀ (toks : List Tok) (s : Str), substituteT m toks = .ok s →
      ∀ k ∈ phList toks, (m k).isSome := by
  intro toks
  induction toks with
  | nil => intro s _ k hk; simp [phList] at hk
  | cons t ts ih =>
    intro s h k hk
    cases t with
    | lit c =>
      simp only [substituteT] at h
      split at h
      · exact ih _ (by assumption) k hk
      · exact Except.noConfusion h
    | dollar =>
      simp only [substituteT] at h
      split at h
      · exact ih _ (by assumption) k hk
      · exact Except.noConfusion h
    | invalid => exact Except.noConfusion h
    | ph n b =>
      simp only [substituteT] at h
      split at h
      · exact Except.noConfusion h
      · rename_i v hm
        split at h
        · rename_i s' hs'
          simp only [phList, List.mem_cons] at hk
          rcases hk with rfl | hk
          · simp [hm]
          · exact ih s' hs' k hk
        · exact Except.noConfusion h

/-- If `substitute` raises `KeyError k`, then `k` is a placeholder of the
template and is unbound in the mapping. -/
theorem substituteT_keyError (m : Str → Option Str) :
    ∀ (toks : List Tok) (k : Str), substituteT m toks = .error (.keyError k) →
      k ∈ phList toks ∧ m k = none := by
  intro toks
  induction toks with
  | nil => intro k h; exact Except.noConfusion h
  | cons t ts ih =>
    intro k h
    cases t with
    | lit c =>
      simp only [substituteT] at h
      split at h
      · exact Except.noConfusion h
      · rename_i e he
        injection h with h1; subst h1
        exact ⟨(ih k he).1, (ih k he).2⟩
    | dollar =>
      simp only [substituteT] at h
      split at h
      · exact Except.noConfusion h
      · rename_i e he
        injection h with h1; subst h1
        exact ⟨(ih k he).1, (ih k he).2⟩
    | invalid =>
      simp only [substituteT] at h
      injection h with h1
      exact SubErr.noConfusion h1
    | ph n b =>
      simp only [substituteT] at h
      split at h
      · rename_i hm
        injection h with h1
        injection h1 with h2
        subst h2
        exact ⟨by simp [phList], hm⟩
      · rename_i v hm
        split at h
        · exact Except.noConfusion h
        · rename_i e he
          injection h with h1; subst h1
          exact ⟨by simp [phList, (ih k he).1], (ih k he).2⟩

/-- The `phList` of a tail is contained in that of the list. -/
theorem phList_cons_subset (t : Tok) (ts : List Tok) :
    ∀ k ∈ phList ts, k ∈ phList (t :: ts) := by
  intro k hk
  cases t <;> simp [phList, hk]

/-- Under the `None`-binding used by `template_fields`, a successful
substitution is at least as long as the token list: every token
contributes at least one character. -/
theorem substituteT_lookupNone_length (dict : List Str) :
    ∀ (toks : List Tok) (s : Str), substituteT (lookupNone dict) toks = .ok s →
      toks.length ≤ s.length := by
  intro toks
  induction toks with
  | nil => intro s h; injection h with he; subst he; simp
  | cons t ts ih =>
    intro s h
    cases t with
    | lit c =>
      simp only [substituteT] at h
      split at h
      · rename_i s' hs'
        injection h with he; subst he
        have := ih s' hs'
        simp only [List.length_cons]
        omega
      · exact Except.noConfusion h
    | dollar =>
      simp only [substituteT] at h
      split at h
      · rename_i s' hs'
        injection h with he; subst he
        have := ih s' hs'
        simp only [List.length_cons]
        omega
      · exact Except.noConfusion h
    | invalid => exact Except.noConfusion h
    | ph n b =>
      simp only [substituteT] at h
      split at h
      · exact Except.noConfusion h
      · rename_i v hm
        split at h
        · rename_i s' hs'
          injection h with he; subst he
          have hv : v = strL "None" := by
            unfold lookupNone at hm
            split at hm
            · injection hm with hv; exact hv.symm
            · exact Option.noConfusion hm
          subst hv
          have := ih s' hs'
          have h4 : (strL "None").length = 4 := by decide
          simp only [List.length_cons, List.length_append, h4]
          omega
        · exact Except.noConfusion h

/-- When the `template_fields` loop terminates successfully, the list it
returns contains every placeholder name of the template, and contains
nothing beyond the initial dictionary and those names. -/
theorem template_fields_loop_ok (toks : List Tok) :
    ∀ (n : Nat) (dict fields : List Str),
      template_fields_loop toks n dict = some (.ok fields) →
      (∀ k ∈ phList toks, k ∈ fields) ∧ (∀ k ∈ fields, k ∈ dict ∨ k ∈ phList toks) := by
  intro n
  induction n with
  | zero => intro dict fields h; exact Option.noConfusion h
  | succ n ih =>
    intro dict fields h
    simp only [template_fields_loop] at h
    split at h
    · rename_i k hs
      have hk := substituteT_keyError _ toks k hs
      have hih := ih (dict ++ [k]) fields h
      refine ⟨hih.1, ?_⟩
      intro k' hk'
      rcases hih.2 k' hk' with hd | hp
      · rw [List.mem_append, List.mem_singleton] at hd
        rcases hd with hd | rfl
        · exact Or.inl hd
        · exact Or.inr hk.1
      · exact Or.inr hp
    · rename_i hs
      injection h with h1
      exact Except.noConfusion h1
    · rename_i s hs
      split at h
      · exact ih dict fields h
      · injection h with h1
        injection h1 with h2
        subst h2
        refine ⟨?_, fun k hk => Or.inl hk⟩
        intro k hk
        have hb := substituteT_ok_mem _ toks s hs k hk
        unfold lookupNone at hb
        by_cases hkd : k ∈ dict
        · exact hkd
        · rw [if_neg hkd] at hb; simp at hb

/-- A filter by a stronger predicate is no longer than a filter by a
weaker one. -/
theorem length_filter_le_filter {α : Type} (p q : α → Bool) (L : List α)
    (himp : ∀ x, q x = true → p x = true) :
    (L.filter q).length ≤ (L.filter p).length := by
  induction L with
  | nil => simp
  | cons b bs ih =>
    by_cases hq : q b = true
    · rw [List.filter_cons_of_pos hq, List.filter_cons_of_pos (himp b hq)]
      simpa using ih
    · rw [List.filter_cons_of_neg (by simpa using hq)]
      by_cases hp : p b = true
      · rw [List.filter_cons_of_pos hp]
        exact Nat.le_succ_of_le ih
      · rw [List.filter_cons_of_neg (by simpa using hp)]
        exact ih

/-- A filter by a stronger predicate that excludes a member satisfying the
weaker predicate is strictly shorter. -/
theorem length_filter_lt_filter {α : Type} (p q : α → Bool) (L : List α) (a : α)
    (himp : ∀ x, q x = true → p x = true)
    (ha : a ∈ L) (hpa : p a = true) (hqa : q a = false) :
    (L.filter q).length < (L.filter p).length := by
  induction L with
  | nil => cases ha
  | cons b bs ih =>
    rw [List.mem_cons] at ha
    rcases ha with rfl | ha
    · rw [List.filter_cons_of_pos hpa, List.filter_cons_of_neg (by simp [hqa])]
      exact Nat.lt_succ_of_le (length_filter_le_filter p q bs himp)
    · by_cases hq : q b = true
      · rw [List.filter_cons_of_pos hq, List.filter_cons_of_pos (himp b hq)]
        exact Nat.succ_lt_succ (ih ha)
      · rw [List.filter_cons_of_neg (by simpa using hq)]
        by_cases hp : p b = true
        · rw [List.filter_cons_of_pos hp]
          exact Nat.lt_succ_of_lt (ih ha)
        · rw [List.filter_cons_of_neg (by simpa using hp)]
          exact ih ha

/-- Termination of the `template_fields` loop on any non-empty template:
with fuel exceeding the number of still-missing placeholder names, the
loop returns a value.  The empty template is precisely the divergent
case: there, substitution returns the empty (falsy) string forever. -/
theorem template_fields_loop_total (toks : List Tok) (hne : toks ≠ []) :
    ∀ (n : Nat) (dict : List Str),
      ((phList toks).dedup.filter (fun k => decide (k ∉ dict))).length < n →
      template_fields_loop toks n dict ≠ none := by
  intro n
  induction n with
  | zero => intro dict h; exact absurd h (Nat.not_lt_zero _)
  | succ n ih =>
    intro dict hlt
    simp only [template_fields_loop]
    split
    · rename_i k hs
      apply ih (dict ++ [k])
      obtain ⟨hkmem, hknone⟩ := substituteT_keyError _ toks k hs
      have hknd : k ∉ dict := by
        intro hkd
        unfold lookupNone at hknone
        rw [if_pos hkd] at hknone
        exact Option.noConfusion hknone
      have hdec : ((phList toks).dedup.filter (fun x => decide (x ∉ dict ++ [k]))).length <
          ((phList toks).dedup.filter (fun x => decide (x ∉ dict))).length := by
        apply length_filter_lt_filter (fun x => decide (x ∉ dict))
          (fun x => decide (x ∉ dict ++ [k])) _ k
        · intro x hx
          rw [decide_eq_true_eq] at hx ⊢
          intro hc
          exact hx (List.mem_append.mpr (Or.inl hc))
        · exact List.mem_dedup.mpr hkmem
        · simpa using hknd
        · simp
      omega
    · rename_i hs
      simp
    · rename_i s hs
      have hlen := substituteT_lookupNone_length dict toks s hs
      have hsne : s ≠ [] := by
        intro he
        subst he
        simp only [List.length_nil, Nat.le_zero] at hlen
        exact hne (List.eq_nil_of_length_eq_zero hlen)
      rw [if_neg hsne]
      simp

/-- Tokens of the anchored pattern `'^' + SAGE_LIB` handed to `re.sub`:
the library root is used as a regular expression, so `.` is a wildcard.
Patterns using any other regex metacharacter are outside this model and
`reCompile` rejects them. -/
inductive RTok where
  | dot
  | lit (c : Char)
deriving DecidableEq

/-- Regex metacharacters other than `.` (whose wildcard meaning is
modelled); a pattern containing any of these is not modelled. -/
def reMeta : List Char := strL "^$*+?{}[]\\|()"

/-- Compile the `SAGE_LIB` part of the pattern `'^' + SAGE_LIB`. -/
def reCompile : Str → Option (List RTok)
  | [] => some []
  | c :: cs =>
      if c = '.' then (reCompile cs).map (RTok.dot :: ·)
      else if c ∈ reMeta then none
      else (reCompile cs).map (RTok.lit c :: ·)

/-- Match the compiled pattern against the start of the string, returning
the unmatched remainder.  Each token consumes exactly one character, and
`.` matches any character except a newline (the DOTALL flag is not
passed to `re.sub`). -/
def reMatchPfx : List RTok → Str → Option Str
  | [], s => some s
  | _ :: _, [] => none
  | t :: ts, c :: cs =>
      if (match t with | .dot => decide (¬ c = '\n') | .lit a => decide (a = c)) = true
      then reMatchPfx ts cs else none

/-- `re.sub('^' + lib, src, fname)`: if the anchored pattern matches a
leading segment of `fname`, replace that segment by `src`; otherwise
return `fname` unchanged.  `none` when the call is outside the model:
either the pattern uses regex features beyond literals and `.`, or the
replacement contains a backslash.  (CPython substitutes a backslash-free
replacement literally; a replacement with a backslash is compiled as a
template, with escape processing and group references that can raise
`re.error` for bad escapes, and is not modelled here.) -/
def pathRewrite (lib src fname : Str) : Option Str :=
  match reCompile lib with
  | none => none
  | some rx =>
      if '\\' ∈ src then none
      else
        some (match reMatchPfx rx fname with
              | some rest => src ++ rest
              | none => fname)

/-- The Python test `haystack.find(needle) >= 0`: substring containment. -/
def hasSub (needle : Str) : Str → Bool
  | [] => needle.isEmpty
  | c :: t => needle.isPrefixOf (c :: t) || hasSub needle t

/-- `file_and_line`, with the introspection of the object abstracted as
inputs: `fname` is `sage_getfile(obj)`, `raw` is `sage_getsourcelines(obj)[1]`,
`secondLine` is the second line of the file (only consulted when the name
ends in `.py`), `lib` is `SAGE_LIB` and `src` is `SAGE_SRC`. -/
def file_and_line (lib src fname secondLine : Str) (raw : Int) : Option (Str × Int) :=
  let lineno : Int := raw - 1
  let p : Str × Int :=
    if (strL ".py").isSuffixOf fname && hasSub (strL "*autogenerated*") secondLine
    then (fname.take (fname.length - 3) ++ strL ".sage", lineno - 3)
    else (fname, lineno)
  match pathRewrite lib src p.1 with
  | none => none
  | some f => some (f, p.2 + 1)

/-- The background-marker adjustment of `edit`: the two sequential `if`
statements guarded by `bg is True` / `bg is False`; `cmd[-1]` on an empty
command raises `IndexError`. -/
def bg_adjust (bg : Option Bool) (cmd : Str) : Except VErr Str :=
  match bg with
  | some true =>
      match cmd.getLast? with
      | none => .error .indexError
      | some c => if c = '&' then .ok cmd else .ok (cmd ++ ['&'])
  | some false =>
      match cmd.getLast? with
      | none => .error .indexError
      | some c => if c = '&' then .ok cmd.dropLast else .ok cmd
  | none => .ok cmd

/-- The binding `substitute(line=lineno, file=filename)` used by `edit`
(the line number is rendered in decimal as the Python `str` would). -/
def edit_binding (fname : Str) (lineno : Int) (k : Str) : Option Str :=
  if k = strL "line" then some (strL (toString lineno))
  else if k = strL "file" then some fname
  else none

/-- Command construction of `edit` after the template is resolved:
substitute `file` and `line`, then apply the background adjustment. -/
def edit_cmd (t : Template) (fname : Str) (lineno : Int) (bg : Option Bool) : Except VErr Str :=
  match substituteT (edit_binding fname lineno) (parse t.template) with
  | .error (.keyError _) => .error .keyError
  | .error .invalidPlaceholder => .error .invalidPlaceholder
  | .ok cmd => bg_adjust bg cmd

/-- Observable outcome of a module call: normal return, raised exception,
or divergence (the `template_fields` loop never returning). -/
inductive Outcome where
  | ok
  | err
  | hang
deriving DecidableEq

/-- Update the stored `edit_template` from the result of a validation:
only a successful validation assigns the global. -/
def applyRes (st : Option Template) : Option (Except VErr Template) → Option Template × Outcome
  | none => (st, .hang)
  | some (.error _) => (st, .err)
  | some (.ok t) => (some t, .ok)

/-- Python whitespace for `str.split()`. -/
def isWS (c : Char) : Bool :=
  c = ' ' || c = '\t' || c = '\n' || c = '\r' || c = '\x0B' || c = '\x0C'

/-- `str.split()` with no arguments: split on whitespace runs, dropping
empty pieces. -/
def wsSplitAux : Str → Str → List Str
  | [], acc => if acc.isEmpty then [] else [acc.reverse]
  | c :: rest, acc =>
      if isWS c then
        (if acc.isEmpty then wsSplitAux rest [] else acc.reverse :: wsSplitAux rest [])
      else wsSplitAux rest (c :: acc)

/-- Split a string the way the EDITOR environment value is split. -/
def wsSplit (s : Str) : List Str := wsSplitAux s []

/-- The observable calls that touch the module-level `edit_template`.
For `edit`, the introspection of the object is abstracted by the
`file_and_line` result `(fname, lineno)` together with `locOk`, which
records whether `file_and_line` itself succeeded (it raises when the
object has no discoverable source). -/
inductive Call where
  | setTemplateCall (s : Str)
  | setEditorCall (name opts : Str)
  | editCall (editor : Option Str) (env : Option Str) (fname : Str) (lineno : Int)
      (bg : Option Bool) (locOk : Bool)

/-- The `elif not edit_template:` branch of `edit`: consult the `EDITOR`
environment variable and feed it to `set_editor`. -/
def editResolveEnv (fuel : Nat) (st : Option Template) (env : Option Str) :
    Option Template × Outcome :=
  match st with
  | some t => (some t, .ok)
  | none =>
      match env with
      | none => (none, .err)
      | some ed =>
          match wsSplit ed with
          | [] => (none, .err)
          | base :: rest => applyRes none (set_editor fuel base (List.intercalate [' '] rest))

/-- Template-resolution step of `edit` (`if editor: ... elif not
edit_template: ...`); a falsy `editor` argument (absent or empty string)
falls through to the environment branch. -/
def editResolve (fuel : Nat) (st : Option Template) (editor env : Option Str) :
    Option Template × Outcome :=
  match editor with
  | some e => if e = [] then editResolveEnv fuel st env else applyRes st (set_editor fuel e [])
  | none => editResolveEnv fuel st env

/-- One call against the module state (the global `edit_template`). -/
def stepCall (fuel : Nat) (st : Option Template) : Call → Option Template × Outcome
  | .setTemplateCall s => applyRes st (set_edit_template_str fuel s)
  | .setEditorCall name opts => applyRes st (set_editor fuel name opts)
  | .editCall editor env fname lineno bg locOk =>
      match editResolve fuel st editor env with
      | (st', .ok) =>
          match st' with
          | none => (none, .err)
          | some t =>
              if locOk then
                (some t,
                  match edit_cmd t fname lineno bg with
                  | .ok _ => Outcome.ok
                  | .error _ => Outcome.err)
              else (some t, .err)
      | (st', o) => (st', o)

/-- Run a sequence of calls, threading the stored template. -/
def runCalls (fuel : Nat) : List Call → Option Template → Option Template
  | [], st => st
  | c :: cs, st => runCalls fuel cs (stepCall fuel st c).1


/-- Decode the validation test into its two propositional parts. -/
theorem goodFields_iff (fields : List Str) :
    goodFields fields = true ↔
      ((∀ k ∈ fields, k = strL "file" ∨ k = strL "line") ∧ strL "file" ∈ fields) := by
  simp [goodFields, List.all_eq_true]

/-- On the empty template the `template_fields` loop never terminates:
substitution immediately succeeds with the empty string, which is falsy,
so `while not dummy` retries forever. -/
theorem template_fields_loop_nil :
    ∀ (n : Nat) (dict : List Str), template_fields_loop [] n dict = none := by
  intro n
  induction n with
  | zero => intro dict; rfl
  | succ n ih => intro dict; exact ih dict

/-- `set_edit_template` on the empty string runs out of any fuel. -/
theorem set_edit_template_empty (fuel : Nat) :
    set_edit_template_str fuel (strL "") = none := by
  unfold set_edit_template_str set_edit_template
  rw [show parse (strL "") = [] from rfl, template_fields_loop_nil]

/-- C1: `set_edit_template` applied to the empty template string does not
terminate with an `InvalidTemplateError`: the probing loop diverges for
every amount of fuel, because substitution returns the empty (falsy)
string.  This refutes the claimed behaviour and documents the code bug. -/
theorem set_edit_template_empty_template_diverges :
    ∀ fuel : Nat, set_edit_template_str fuel (strL "") = none :=
  fun fuel => set_edit_template_empty fuel

/-- C2: whenever `set_edit_template` succeeds on a template string, the
placeholder set of that string is contained in `{file, line}` and
contains `file`; but the converse direction of the claim fails at the
empty string, where the code diverges instead of raising (second
conjunct). -/
theorem set_edit_template_validation :
    (∀ (fuel : Nat) (s : Str) (t : Template),
        set_edit_template_str fuel s = some (.ok t) →
        (∀ k ∈ phList (parse s), k = strL "file" ∨ k = strL "line") ∧
          strL "file" ∈ phList (parse s)) ∧
    (∀ fuel : Nat, set_edit_template_str fuel (strL "") = none) := by
  constructor
  · intro fuel s t h
    unfold set_edit_template_str set_edit_template at h
    split at h
    · exact Option.noConfusion h
    · injection h with h1
      exact Except.noConfusion h1
    · rename_i fields hres
      split at h
      · rename_i hgood
        have hl := template_fields_loop_ok (parse s) fuel [] fields hres
        have hg := (goodFields_iff fields).mp hgood
        constructor
        · intro k hk
          exact hg.1 k (hl.1 k hk)
        · rcases hl.2 _ hg.2 with hnil | hmem
          · exact absurd hnil (List.not_mem_nil _)
          · exact hmem
      · injection h with h1
        exact Except.noConfusion h1
  · exact set_edit_template_empty

/-- C2 witness: a concrete accepted template, `vi ${file}`. -/
theorem set_edit_template_validation_witness :
    strL "file" ∈ phList (parse (strL "vi ${file}")) :=
  (set_edit_template_validation.1 3 (strL "vi ${file}") ⟨strL "vi ${file}"⟩ rfl).2

/-- C7: a template string accepted by `set_edit_template` reads back as
itself and re-validating the read-back string succeeds with the same
validated template. -/
theorem set_edit_template_roundtrip (fuel : Nat) (s : Str) (t : Template)
    (h : set_edit_template_str fuel s = some (.ok t)) :
    t.template = s ∧ set_edit_template_str fuel t.template = some (.ok t) := by
  have hts : t = ⟨s⟩ := by
    unfold set_edit_template_str set_edit_template at h
    split at h
    · exact Option.noConfusion h
    · injection h with h1
      exact Except.noConfusion h1
    · split at h
      · injection h with h1
        injection h1 with h2
        exact h2.symm
      · injection h with h1
        exact Except.noConfusion h1
  subst hts
  exact ⟨rfl, h⟩

/-- C7 witness: round-trip at the concrete template `vi ${file}`. -/
theorem set_edit_template_roundtrip_witness :
    (⟨strL "vi ${file}"⟩ : Template).template = strL "vi ${file}" ∧
      set_edit_template_str 3 (⟨strL "vi ${file}"⟩ : Template).template =
        some (.ok ⟨strL "vi ${file}"⟩) :=
  set_edit_template_roundtrip 3 (strL "vi ${file}") ⟨strL "vi ${file}"⟩ rfl

/-- C3 counterexample: the default emacs template, whose placeholder set
is `{opts, line, file}`, is rejected by `set_edit_template` with the
only-file-and-line `ValueError`, against the claim that templates
referencing `opts` are accepted. -/
theorem opts_template_rejected_concrete :
    set_edit_template_str 5 (strL "emacs ${opts} +${line} ${file}") =
      some (.error .invalidTemplate) := rfl

/-- C3 amended: any template referencing the `opts` placeholder is
rejected by `set_edit_template` (given fuel beyond the number of distinct
placeholders, so that the probing loop terminates). -/
theorem set_edit_template_rejects_opts (s : Str) (fuel : Nat)
    (hmem : strL "opts" ∈ phList (parse s))
    (hfuel : (phList (parse s)).dedup.length < fuel) :
    ∃ e, set_edit_template_str fuel s = some (.error e) := by
  have hne : parse s ≠ [] := by
    intro hnil
    rw [hnil] at hmem
    simp [phList] at hmem
  have hfilter :
      ((phList (parse s)).dedup.filter (fun k => decide (k ∉ ([] : List Str)))).length < fuel := by
    have heq : ((phList (parse s)).dedup.filter (fun k => decide (k ∉ ([] : List Str)))) =
        (phList (parse s)).dedup := by
      apply List.filter_eq_self.mpr
      intro a _
      simp
    rw [heq]
    exact hfuel
  have htot := template_fields_loop_total (parse s) hne fuel [] hfilter
  unfold set_edit_template_str set_edit_template
  cases hres : template_fields_loop (parse s) fuel [] with
  | none => exact absurd hres htot
  | some r =>
    cases r with
    | error e => exact ⟨.invalidPlaceholder, rfl⟩
    | ok fields =>
      have hmemf : strL "opts" ∈ fields :=
        (template_fields_loop_ok (parse s) fuel [] fields hres).1 _ hmem
      have hbad : goodFields fields = false := by
        cases hgb : goodFields fields
        · rfl
        · exfalso
          rcases ((goodFields_iff fields).mp hgb).1 _ hmemf with h1 | h1 <;>
            exact absurd h1 (by decide)
      exact ⟨.invalidTemplate, by simp [hbad]⟩

/-- C3 amended witness: the emacs default template at fuel 5. -/
theorem set_edit_template_rejects_opts_witness :
    ∃ e, set_edit_template_str 5 (strL "emacs ${opts} +${line} ${file}") =
      some (.error e) :=
  set_edit_template_rejects_opts (strL "emacs ${opts} +${line} ${file}") 5
    (by decide) (by decide)

/-- C10: a validated template (`${file}`) whose substitution with an
empty resolved filename yields the empty command makes the background
adjustment hit `cmd[-1]` on an empty string: the `IndexError` branch is
reachable for `bg=True` and for `bg=False`. -/
theorem edit_empty_command_index_error :
    set_edit_template_str 3 (strL "${file}") = some (.ok ⟨strL "${file}"⟩) ∧
      substituteT (edit_binding [] 1) (parse (strL "${file}")) = .ok [] ∧
      edit_cmd ⟨strL "${file}"⟩ [] 1 (some true) = .error .indexError ∧
      edit_cmd ⟨strL "${file}"⟩ [] 1 (some false) = .error .indexError :=
  ⟨rfl, rfl, rfl, rfl⟩
/-- C6 counterexample: with `bg=True` and the empty command (which does
not end in `&`), the adjustment raises `IndexError` instead of appending
a marker. -/
theorem bg_true_empty_command_errors :
    bg_adjust (some true) [] = .error .indexError ∧
      ([] : Str).getLast? ≠ some '&' ∧
      bg_adjust (some true) [] ≠ .ok ([] ++ ['&']) :=
  ⟨rfl, by decide, by decide⟩

/-- C6 amended: for every non-empty command, the adjustment appends one
`&` when `bg=True` and the command does not end in `&`, strips exactly
one trailing `&` when `bg=False` and it does, and otherwise (including
`bg` unset) leaves the command unchanged. -/
theorem bg_adjust_cases (bg : Option Bool) (cmd : Str) (hne : cmd ≠ []) :
    (bg = some true → cmd.getLast? ≠ some '&' → bg_adjust bg cmd = .ok (cmd ++ ['&'])) ∧
    (bg = some false → cmd.getLast? = some '&' → bg_adjust bg cmd = .ok cmd.dropLast) ∧
    (bg = some true → cmd.getLast? = some '&' → bg_adjust bg cmd = .ok cmd) ∧
    (bg = some false → cmd.getLast? ≠ some '&' → bg_adjust bg cmd = .ok cmd) ∧
    (bg = none → bg_adjust bg cmd = .ok cmd) := by
  obtain ⟨c, hc⟩ : ∃ c, cmd.getLast? = some c := by
    cases hcm : cmd.getLast? with
    | none =>
      rw [List.getLast?_eq_none_iff] at hcm
      exact absurd hcm hne
    | some c => exact ⟨c, rfl⟩
  refine ⟨?_, ?_, ?_, ?_, ?_⟩
  · intro hbg hnl
    subst hbg
    have hcne : ¬ c = '&' := by
      intro he
      subst he
      exact hnl hc
    unfold bg_adjust
    rw [hc]
    simp [hcne]
  · intro hbg hl
    subst hbg
    have hce : c = '&' := by
      rw [hc] at hl
      injection hl
    unfold bg_adjust
    rw [hc]
    simp [hce]
  · intro hbg hl
    subst hbg
    have hce : c = '&' := by
      rw [hc] at hl
      injection hl
    unfold bg_adjust
    rw [hc]
    simp [hce]
  · intro hbg hnl
    subst hbg
    have hcne : ¬ c = '&' := by
      intro he
      subst he
      exact hnl hc
    unfold bg_adjust
    rw [hc]
    simp [hcne]
  · intro hbg
    subst hbg
    rfl

/-- C6 amended witness: appending at a concrete non-empty command. -/
theorem bg_adjust_cases_witness :
    bg_adjust (some true) (strL "vi f") = .ok (strL "vi f" ++ ['&']) :=
  (bg_adjust_cases (some true) (strL "vi f") (by decide)).1 rfl (by decide)

/-- C4: on a `.py` file whose second line carries the autogeneration
marker, `file_and_line` rewrites the extension to `.sage` (before the
path rewrite) and returns line `(raw - 1) - 3 + 1`, i.e. the zero-based
raw line minus 3, converted back to 1-based. -/
theorem file_and_line_autogenerated (lib src fname secondLine : Str) (raw : Int)
    (rx : List RTok)
    (hpy : (strL ".py").isSuffixOf fname = true)
    (hmark : hasSub (strL "*autogenerated*") secondLine = true)
    (hrx : reCompile lib = some rx)
    (hsrc : '\\' ∉ src) :
    ∃ f, pathRewrite lib src (fname.take (fname.length - 3) ++ strL ".sage") = some f ∧
      file_and_line lib src fname secondLine raw = some (f, raw - 1 - 3 + 1) := by
  unfold file_and_line pathRewrite
  rw [hpy, hmark, hrx]
  simp only [Bool.and_self, if_true]
  rw [if_neg hsrc]
  exact ⟨_, rfl, rfl⟩

/-- C4 witness: a concrete autogenerated file. -/
theorem file_and_line_autogenerated_witness :
    ∃ f, pathRewrite (strL "/L") (strL "/S")
        ((strL "/L/a.py").take ((strL "/L/a.py").length - 3) ++ strL ".sage") = some f ∧
      file_and_line (strL "/L") (strL "/S") (strL "/L/a.py") (strL "x *autogenerated* y") 10 =
        some (f, 10 - 1 - 3 + 1) :=
  file_and_line_autogenerated (strL "/L") (strL "/S") (strL "/L/a.py")
    (strL "x *autogenerated* y") 10 [RTok.lit '/', RTok.lit 'L'] rfl rfl rfl (by decide)
/-- C5 counterexample: with the installed root `/a.b`, the filename
`/aXb/f.pyx` does not start with the root as a literal string, yet
`re.sub` rewrites it (the `.` in the root matches `X`), so the filename
is not returned unchanged. -/
theorem path_rewrite_changes_nonliteral_match :
    (strL "/a.b").isPrefixOf (strL "/aXb/f.pyx") = false ∧
      file_and_line (strL "/a.b") (strL "/S") (strL "/aXb/f.pyx") [] 5 =
        some (strL "/S/f.pyx", 5) ∧
      strL "/S/f.pyx" ≠ strL "/aXb/f.pyx" :=
  ⟨rfl, rfl, by decide⟩

/-- A pattern free of regex metacharacters compiles to plain literals. -/
theorem reCompile_no_meta (lib : Str) (h : ∀ c ∈ lib, c ≠ '.' ∧ c ∉ reMeta) :
    reCompile lib = some (lib.map RTok.lit) := by
  induction lib with
  | nil => rfl
  | cons c cs ih =>
    obtain ⟨hdot, hmeta⟩ := h c (List.mem_cons_self c cs)
    unfold reCompile
    rw [if_neg hdot, if_neg hmeta, ih (fun x hx => h x (List.mem_cons_of_mem c hx))]
    rfl

/-- Matching a literal-only pattern is exactly literal-prefix stripping. -/
theorem reMatchPfx_lit (l : Str) :
    ∀ s : Str, reMatchPfx (l.map RTok.lit) s =
      (if l.isPrefixOf s then some (s.drop l.length) else none) := by
  induction l with
  | nil =>
    intro s
    simp [reMatchPfx, List.isPrefixOf]
  | cons c cs ih =>
    intro s
    cases s with
    | nil => simp [reMatchPfx, List.isPrefixOf]
    | cons d ds =>
      by_cases hcd : c = d
      · subst hcd
        have hl : reMatchPfx ((c :: cs).map RTok.lit) (c :: ds) =
            reMatchPfx (cs.map RTok.lit) ds := by
          simp [reMatchPfx]
        have hr : (c :: cs).isPrefixOf (c :: ds) = cs.isPrefixOf ds := by
          simp [List.isPrefixOf]
        rw [hl, hr, ih ds]
        simp
      · have hl : reMatchPfx ((c :: cs).map RTok.lit) (d :: ds) = none := by
          simp [reMatchPfx, hcd]
        have hr : (c :: cs).isPrefixOf (d :: ds) = false := by
          simp [List.isPrefixOf, hcd]
        rw [hl, hr]
        simp

/-- C5 amended: when the configured installed-library root contains no
regex metacharacter and the development root contains no backslash (so
that `re.sub` substitutes it literally instead of compiling it as a
template), the path-rewrite step has exactly the literal-prefix
semantics the claim states; for roots with metacharacters, `re.sub`
regex matching applies instead. -/
theorem path_rewrite_literal_when_no_metachar (lib src fname : Str)
    (h : ∀ c ∈ lib, c ≠ '.' ∧ c ∉ reMeta)
    (hsrc : '\\' ∉ src) :
    pathRewrite lib src fname =
      some (if lib.isPrefixOf fname then src ++ fname.drop lib.length else fname) := by
  unfold pathRewrite
  rw [reCompile_no_meta lib h]
  dsimp only
  rw [if_neg hsrc, reMatchPfx_lit]
  cases hp : lib.isPrefixOf fname with
  | true => simp [hp]
  | false => simp [hp]

/-- C5 amended witness: a concrete metacharacter-free root, both for a
matching and for a non-matching filename. -/
theorem path_rewrite_literal_when_no_metachar_witness :
    pathRewrite (strL "/usr/lib") (strL "/dev/src") (strL "/usr/lib/a.pyx") =
      some (if (strL "/usr/lib").isPrefixOf (strL "/usr/lib/a.pyx") then
              strL "/dev/src" ++ (strL "/usr/lib/a.pyx").drop (strL "/usr/lib").length
            else strL "/usr/lib/a.pyx") :=
  path_rewrite_literal_when_no_metachar (strL "/usr/lib") (strL "/dev/src")
    (strL "/usr/lib/a.pyx") (by decide) (by decide)
/-- Only a successful validation result replaces the stored template. -/
theorem applyRes_fst_isSome (st : Option Template) (r : Option (Except VErr Template))
    (h : st.isSome = true) : ((applyRes st r).1).isSome = true := by
  cases r with
  | none => exact h
  | some x =>
    cases x with
    | error e => exact h
    | ok t => rfl

/-- A validation that does not return `ok` leaves the template as it was. -/
theorem applyRes_fst_of_ne_ok (st : Option Template) (r : Option (Except VErr Template))
    (h : (applyRes st r).2 ≠ .ok) : (applyRes st r).1 = st := by
  cases r with
  | none => rfl
  | some x =>
    cases x with
    | error e => rfl
    | ok t => exact absurd rfl h

/-- From the unset state, a stored template implies a successful call. -/
theorem applyRes_none_isSome (r : Option (Except VErr Template))
    (h : ((applyRes none r).1).isSome = true) : (applyRes none r).2 = .ok := by
  cases r with
  | none => simp [applyRes] at h
  | some x =>
    cases x with
    | error e => simp [applyRes] at h
    | ok t => rfl

/-- The environment branch of `edit` preserves a set template. -/
theorem editResolveEnv_isSome (fuel : Nat) (st : Option Template) (env : Option Str)
    (h : st.isSome = true) : ((editResolveEnv fuel st env).1).isSome = true := by
  cases st with
  | some t => rfl
  | none => simp at h

/-- The environment branch changes the template only when it succeeds. -/
theorem editResolveEnv_fst_of_ne_ok (fuel : Nat) (st : Option Template) (env : Option Str)
    (h : (editResolveEnv fuel st env).2 ≠ .ok) : (editResolveEnv fuel st env).1 = st := by
  cases st with
  | some t => rfl
  | none =>
    cases env with
    | none => rfl
    | some ed =>
      revert h
      unfold editResolveEnv
      dsimp only
      cases wsSplit ed with
      | nil => intro _; rfl
      | cons base rest => exact applyRes_fst_of_ne_ok none _

/-- The environment branch sets a template only on success. -/
theorem editResolveEnv_none_isSome (fuel : Nat) (env : Option Str)
    (h : ((editResolveEnv fuel none env).1).isSome = true) :
    (editResolveEnv fuel none env).2 = .ok := by
  cases env with
  | none => simp [editResolveEnv] at h
  | some ed =>
    revert h
    unfold editResolveEnv
    dsimp only
    cases wsSplit ed with
    | nil => intro h; simp at h
    | cons base rest => exact applyRes_none_isSome _

/-- Template resolution in `edit` preserves a set template. -/
theorem editResolve_isSome (fuel : Nat) (st : Option Template) (editor env : Option Str)
    (h : st.isSome = true) : ((editResolve fuel st editor env).1).isSome = true := by
  cases editor with
  | none => exact editResolveEnv_isSome fuel st env h
  | some e =>
    unfold editResolve
    dsimp only
    by_cases he : e = []
    · rw [if_pos he]
      exact editResolveEnv_isSome fuel st env h
    · rw [if_neg he]
      exact applyRes_fst_isSome st _ h

/-- Template resolution changes the template only when it succeeds. -/
theorem editResolve_fst_of_ne_ok (fuel : Nat) (st : Option Template) (editor env : Option Str)
    (h : (editResolve fuel st editor env).2 ≠ .ok) : (editResolve fuel st editor env).1 = st := by
  cases editor with
  | none => exact editResolveEnv_fst_of_ne_ok fuel st env h
  | some e =>
    revert h
    unfold editResolve
    dsimp only
    by_cases he : e = []
    · rw [if_pos he]
      exact editResolveEnv_fst_of_ne_ok fuel st env
    · rw [if_neg he]
      exact applyRes_fst_of_ne_ok st _

/-- From the unset state, resolution stores a template only on success. -/
theorem editResolve_none_isSome (fuel : Nat) (editor env : Option Str)
    (h : ((editResolve fuel none editor env).1).isSome = true) :
    (editResolve fuel none editor env).2 = .ok := by
  cases editor with
  | none => exact editResolveEnv_none_isSome fuel env h
  | some e =>
    revert h
    unfold editResolve
    dsimp only
    by_cases he : e = []
    · rw [if_pos he]
      exact editResolveEnv_none_isSome fuel env
    · rw [if_neg he]
      exact applyRes_none_isSome _

/-- `edit` never touches the stored template after its resolution step:
the state after an `edit` call is exactly the state its resolution left. -/
theorem stepCall_edit_fst (fuel : Nat) (st : Option Template) (editor env : Option Str)
    (fname : Str) (lineno : Int) (bg : Option Bool) (locOk : Bool) :
    (stepCall fuel st (.editCall editor env fname lineno bg locOk)).1 =
      (editResolve fuel st editor env).1 := by
  unfold stepCall
  dsimp only
  rcases hres : editResolve fuel st editor env with ⟨st', o⟩
  cases o with
  | ok =>
    cases st' with
    | none => rfl
    | some t => cases locOk <;> rfl
  | err => rfl
  | hang => rfl

/-- One call never clears a set template. -/
theorem stepCall_preserves_isSome (fuel : Nat) (st : Option Template) (c : Call)
    (h : st.isSome = true) : ((stepCall fuel st c).1).isSome = true := by
  cases c with
  | setTemplateCall s => exact applyRes_fst_isSome st _ h
  | setEditorCall name opts => exact applyRes_fst_isSome st _ h
  | editCall editor env fname lineno bg locOk =>
    rw [stepCall_edit_fst]
    exact editResolve_isSome fuel st editor env h
/-- A whole call sequence never clears a set template. -/
theorem runCalls_preserves_isSome (fuel : Nat) :
    ∀ (cs : List Call) (st : Option Template),
      st.isSome = true → (runCalls fuel cs st).isSome = true := by
  intro cs
  induction cs with
  | nil => intro st h; exact h
  | cons c cs ih =>
    intro st h
    exact ih _ (stepCall_preserves_isSome fuel st c h)

/-- C8 counterexample: an `edit` call that fails (the source of the object
cannot be located) but whose editor argument already resolved replaces
the previously active template, against the claim that a failing call
leaves the active template unchanged. -/
theorem edit_failure_after_resolution_replaces_template :
    (stepCall 5 (some ⟨strL "echo ${file}"⟩)
        (.editCall (some (strL "vi")) none (strL "/f") 1 none false)).2 = .err ∧
      (stepCall 5 (some ⟨strL "echo ${file}"⟩)
        (.editCall (some (strL "vi")) none (strL "/f") 1 none false)).1 =
        some ⟨strL "vi -c ${line} ${file}"⟩ ∧
      (⟨strL "vi -c ${line} ${file}"⟩ : Template) ≠ ⟨strL "echo ${file}"⟩ :=
  ⟨rfl, rfl, by decide⟩

/-- C8 amended: the active template starts Unset and becomes Set only
through a successful `set_edit_template` / `set_editor` validation
(including the one `edit` performs during resolution); once Set it is
never cleared by any sequence of calls; a failing `set_edit_template` or
`set_editor` call leaves it unchanged, and a failing `edit` call leaves
it exactly as its editor-resolution step left it (which is unchanged
whenever the resolution itself did not succeed). -/
theorem template_state_machine :
    (∀ (fuel : Nat) (st : Option Template) (c : Call),
        st.isSome = true → ((stepCall fuel st c).1).isSome = true) ∧
    (∀ (fuel : Nat) (cs : List Call) (st : Option Template),
        st.isSome = true → (runCalls fuel cs st).isSome = true) ∧
    (∀ (fuel : Nat) (st : Option Template) (s : Str),
        (stepCall fuel st (.setTemplateCall s)).2 ≠ .ok →
          (stepCall fuel st (.setTemplateCall s)).1 = st) ∧
    (∀ (fuel : Nat) (st : Option Template) (name opts : Str),
        (stepCall fuel st (.setEditorCall name opts)).2 ≠ .ok →
          (stepCall fuel st (.setEditorCall name opts)).1 = st) ∧
    (∀ (fuel : Nat) (s : Str),
        ((stepCall fuel none (.setTemplateCall s)).1).isSome = true →
          (stepCall fuel none (.setTemplateCall s)).2 = .ok) ∧
    (∀ (fuel : Nat) (name opts : Str),
        ((stepCall fuel none (.setEditorCall name opts)).1).isSome = true →
          (stepCall fuel none (.setEditorCall name opts)).2 = .ok) ∧
    (∀ (fuel : Nat) (st : Option Template) (editor env : Option Str) (fname : Str)
        (lineno : Int) (bg : Option Bool) (locOk : Bool),
        (stepCall fuel st (.editCall editor env fname lineno bg locOk)).1 =
          (editResolve fuel st editor env).1) ∧
    (∀ (fuel : Nat) (st : Option Template) (editor env : Option Str),
        (editResolve fuel st editor env).2 ≠ .ok →
          (editResolve fuel st editor env).1 = st) ∧
    (∀ (fuel : Nat) (editor env : Option Str),
        ((editResolve fuel none editor env).1).isSome = true →
          (editResolve fuel none editor env).2 = .ok) := by
  refine ⟨stepCall_preserves_isSome, runCalls_preserves_isSome, ?_, ?_, ?_, ?_,
    stepCall_edit_fst, editResolve_fst_of_ne_ok, editResolve_none_isSome⟩
  · intro fuel st s h
    exact applyRes_fst_of_ne_ok st _ h
  · intro fuel st name opts h
    exact applyRes_fst_of_ne_ok st _ h
  · intro fuel s h
    exact applyRes_none_isSome _ h
  · intro fuel name opts h
    exact applyRes_none_isSome _ h

/-- C8 amended witness: a concrete call sequence starting from a set
template keeps the template set. -/
theorem template_state_machine_witness :
    (runCalls 5
        [Call.setTemplateCall (strL "vi ${file}"),
         Call.editCall none none (strL "/f") 1 none true]
        (some ⟨strL "kate ${file}"⟩)).isSome = true :=
  template_state_machine.2.1 5
    [Call.setTemplateCall (strL "vi ${file}"),
     Call.editCall none none (strL "/f") 1 none true]
    (some ⟨strL "kate ${file}"⟩) rfl

end EditModule
